import Mathlib

/-!
Verification of the ingestion-and-persistence subsystem specification of the
Wolf AI V2.2 repository against the code present in the repository.

The repository ships the Next.js frontend (TypeScript), the generated
`openapi.json` of the FastAPI backend, deployment scripts and documentation.
The Python backend itself (KeyRegistry, IngestionScheduler, HealthAggregator,
ModeResolver) is not part of the source tree; where a claim is decided by that
missing backend, the corresponding definition below is modelled from the
specification, and its doc comment says so explicitly.  Everything else is
translated directly from the files of the repository.
-/

set_option maxRecDepth 4096

/-! ## Health check wire format, from src/openapi.json -/

/-- Field names of `components.schemas.HealthCheckResponse` in
`src/openapi.json`, in schema order.  This is the wire format of the compact
health endpoint (`/api/v1/health`). -/
def healthCheckResponseFields : List String :=
  ["status", "message", "scheduler_status", "drive_service_status",
   "config_status", "mode", "gemini_status"]

/-- The compact health response object, one field per property of
`HealthCheckResponse` in `src/openapi.json` (all seven properties carry
defaults, so a serialized response always contains all of them). -/
structure HealthCheckResponse where
  status : String
  message : String
  scheduler_status : String
  drive_service_status : String
  config_status : String
  mode : String
  gemini_status : String

/-- The JSON object produced for a `HealthCheckResponse`: field names paired
with their values, in schema order. -/
def HealthCheckResponse.toFields (r : HealthCheckResponse) : List (String × String) :=
  [("status", r.status), ("message", r.message),
   ("scheduler_status", r.scheduler_status),
   ("drive_service_status", r.drive_service_status),
   ("config_status", r.config_status), ("mode", r.mode),
   ("gemini_status", r.gemini_status)]

/-- The field list asserted by the specification sentence
"`GET /health` maps to status, message, scheduler_status,
remote_storage_status, config_status, mode, analysis_service_status".
Written from the words of the spec, to be compared with
`healthCheckResponseFields`, which is written from `src/openapi.json`. -/
def specClaimedHealthFields : List String :=
  ["status", "message", "scheduler_status", "remote_storage_status",
   "config_status", "mode", "analysis_service_status"]

/-! ## Key management

The enumeration of recognized key names is `MANAGED_API_KEYS` in
`src/frontend/components/SettingsCard.tsx`.  The backend KeyRegistry and the
`/api/v1/set_keys` and `/api/v1/get_key_status` endpoints are not in the
repository; they are modelled from the specification below, over the
enumeration taken from the source. -/

/-- The closed set of recognized key names, copied from `MANAGED_API_KEYS` in
`src/frontend/components/SettingsCard.tsx` (same order). -/
def MANAGED_API_KEYS : List String :=
  ["GOOGLE_API_KEY",
   "API_KEY_FRED",
   "API_KEY_FINMIND",
   "API_KEY_FINNHUB",
   "API_KEY_FMP",
   "ALPHA_VANTAGE_API_KEY",
   "DEEPSEEK_API_KEY"]

/-- Provenance of a stored key value (spec section 3, KeyEntry). -/
inductive KeySource where
  | environment
  | runtime
deriving DecidableEq, Repr

/-- A stored credential: value plus provenance (spec section 3, KeyEntry). -/
structure KeyEntry where
  value : String
  source : KeySource
deriving DecidableEq, Repr

/-- The KeyRegistry state: an association list from key name to entry.
Modelled from the spec: the backend KeyRegistry is not in the repository. -/
abbrev KeyRegistry := List (String × KeyEntry)

/-- Look up the entry currently stored for a key name. -/
def regGet : KeyRegistry → String → Option KeyEntry
  | [], _ => none
  | p :: rest, k => if p.1 = k then some p.2 else regGet rest k

/-- Remove every entry stored for a key name. -/
def eraseKey : KeyRegistry → String → KeyRegistry
  | [], _ => []
  | p :: rest, k => if p.1 = k then eraseKey rest k else p :: eraseKey rest k

/-- Insert or overwrite the entry for a key name. -/
def upsertKey : KeyRegistry → String → KeyEntry → KeyRegistry
  | [], k, e => [(k, e)]
  | p :: rest, k, e => if p.1 = k then (k, e) :: rest else p :: upsertKey rest k e

/-- Modelled from the spec: applying one runtime key update.  The frontend
`handleSaveKey` in `src/frontend/components/SettingsCard.tsx` submits an empty
string as a deliberate, user-confirmed clear request, so an empty value clears
the entry; a non-empty value stores it with runtime provenance. -/
def applyOneKey (reg : KeyRegistry) (k v : String) : KeyRegistry :=
  if v = "" then eraseKey reg k else upsertKey reg k ⟨v, KeySource.runtime⟩

/-- Modelled from the spec: `set(key_name, value)` of the KeyRegistry, which
fails with ValidationError when the key name is outside the enumerated
recognized set and otherwise applies the update atomically. -/
def setKey (reg : KeyRegistry) (k v : String) : Except Unit KeyRegistry :=
  if k ∈ MANAGED_API_KEYS then Except.ok (applyOneKey reg k v)
  else Except.error ()

/-- Whether a key currently has a stored value. -/
def regHasValue (reg : KeyRegistry) (k : String) : Bool :=
  (regGet reg k).isSome

/-- Modelled from the spec: the `GET /key_status` response, a mapping from each
enumerated key name to the localized string 已設定 (set) or 未設定 (unset),
exactly as the frontend `fetchApiKeyStatus` in
`src/frontend/components/SettingsCard.tsx` consumes it. -/
def keyStatusMap (reg : KeyRegistry) : List (String × String) :=
  MANAGED_API_KEYS.map (fun k => (k, if regHasValue reg k then "已設定" else "未設定"))

/-- Result of one `POST /set_keys` request: HTTP status code, the registry
after the request, and the response body (the updated status mapping) when the
request succeeded. -/
structure SetKeysResult where
  statusCode : Nat
  registry : KeyRegistry
  body : Option (List (String × String))

/-- Modelled from the spec: the `POST /set_keys` endpoint.  A body whose every
key name belongs to the enumerated recognized set updates the registry and
returns the updated status mapping; any unrecognized key name yields HTTP 422
and updates nothing. -/
def setKeysEndpoint (reg : KeyRegistry) (body : List (String × String)) : SetKeysResult :=
  if body.all (fun p => decide (p.1 ∈ MANAGED_API_KEYS)) then
    let reg2 := body.foldl (fun r p => applyOneKey r p.1 p.2) reg
    ⟨200, reg2, some (keyStatusMap reg2)⟩
  else
    ⟨422, reg, none⟩

/-! ## KeyRegistry update traces

The specification requires that a runtime `set` is the only writer, is atomic
relative to readers, and permanently shadows an environment-sourced value.
Modelled from the spec: each successful `set` call is a single transition of
the registry state, so a reader between transitions observes only completely
written entries. -/

/-- One successful KeyRegistry mutation: a `set(k, v)` call that passed
validation (an empty `v` is the explicit clear request). -/
inductive RegEv where
  | setK (k v : String)
deriving DecidableEq, Repr

/-- Modelled from the spec: a successful `set` call is allowed only for a
recognized key name and applies `applyOneKey` in one atomic step. -/
inductive RegStep : KeyRegistry → RegEv → KeyRegistry → Prop where
  | setK (reg : KeyRegistry) (k v : String) (hk : k ∈ MANAGED_API_KEYS) :
      RegStep reg (RegEv.setK k v) (applyOneKey reg k v)

/-- A sequence of successful `set` calls applied to the registry. -/
inductive RegTrace : KeyRegistry → List RegEv → KeyRegistry → Prop where
  | nil (reg : KeyRegistry) : RegTrace reg [] reg
  | cons {reg reg1 reg2 : KeyRegistry} {e : RegEv} {es : List RegEv} :
      RegStep reg e reg1 → RegTrace reg1 es reg2 → RegTrace reg (e :: es) reg2

/-! ## Frontend operation mode provider, from src/unnamed/part_008
(frontend/contexts/OperationModeContext.tsx) -/

/-- The state exposed by `OperationModeProvider`: the current operation mode
string (null until loaded) and the loading flag. -/
structure ProviderState where
  mode : Option String
  isLoadingMode : Bool
deriving DecidableEq, Repr

/-- Initial provider state: `useState<string | null>(null)` and
`useState<boolean>(true)`. -/
def providerInit : ProviderState := ⟨none, true⟩

/-- Outcome of the single `fetch('/api/health')` performed on mount: either a
failure (network error or a non-ok response, both reach the catch block) or a
parsed JSON body whose optional `mode` field is carried here. -/
inductive FetchOutcome where
  | failure
  | success (modeField : Option String)
deriving DecidableEq, Repr

/-- JavaScript truthy-or: `data.mode || defaultValue` treats a missing field
and an empty string as falsy. -/
def jsOrDefault (v : Option String) (d : String) : String :=
  match v with
  | none => d
  | some s => if s = "" then d else s

/-- The provider state after `fetchMode` completes, translated from the body
of `fetchMode` in `src/unnamed/part_008`: on failure the catch block sets the
mode to "transient"; on success it sets `data.mode || 'transient'`; the
finally block always clears `isLoadingMode`. -/
def fetchModeResult : FetchOutcome → ProviderState
  | FetchOutcome.failure => ⟨some "transient", false⟩
  | FetchOutcome.success m => ⟨some (jsOrDefault m "transient"), false⟩

/-- The only transition of the provider: the mount-time fetch completing.  The
`useEffect` has an empty dependency array, so `fetchMode` runs exactly once;
this is encoded by enabling the transition only while `isLoadingMode` holds
(it holds in the initial state and is cleared by the transition itself). -/
inductive ProviderStep : ProviderState → FetchOutcome → ProviderState → Prop where
  | fetchDone (s : ProviderState) (o : FetchOutcome) (h : s.isLoadingMode = true) :
      ProviderStep s o (fetchModeResult o)

/-- A sequence of provider transitions. -/
inductive ProviderTrace : ProviderState → List FetchOutcome → ProviderState → Prop where
  | nil (s : ProviderState) : ProviderTrace s [] s
  | cons {s s1 s2 : ProviderState} {o : FetchOutcome} {os : List FetchOutcome} :
      ProviderStep s o s1 → ProviderTrace s1 os s2 → ProviderTrace s (o :: os) s2

/-! ## Ingestion state machine

Modelled from the spec: the IngestionScheduler, RemoteFolderGateway and
ProcessedFileRecord live in the missing Python backend.  The spec prescribes:
a recurring pass lists the inbox, claims each file by atomically moving it out
of the inbox into an in-progress location, processes it, and finalizes it into
the archive or error location while recording the filename in
ProcessedFileRecord; a tick that fires while a pass is active is skipped; a
file already recorded in ProcessedFileRecord is never listed or claimed
again. -/

/-- The ingestion subsystem state: the remote inbox, the transient in-progress
location, the ProcessedFileRecord filename set, the archive and error
locations, and whether a pass is currently active. -/
structure IngestState where
  inbox : List String
  inProgress : List String
  processed : List String
  archive : List String
  errorLoc : List String
  passActive : Bool
deriving DecidableEq, Repr

/-- Observable ingestion events: a tick beginning a pass (a tick arriving
while a pass is active is skipped, i.e. produces no event), a claim of one
file, a finalization of one claimed file with its outcome, and the end of a
pass. -/
inductive IngestEv where
  | beginPass
  | claimFile (n : String)
  | finalizeFile (n : String) (ok : Bool)
  | endPass
deriving DecidableEq, Repr

/-- Modelled from the spec: the transition relation of the ingestion
subsystem.  A pass begins only when none is active (overlapping ticks are
skipped); a claim requires an active pass, presence in the inbox, no
ProcessedFileRecord entry and no concurrent claim, and atomically moves the
file out of the inbox; finalization moves a claimed file to the archive or
error location and records its name in ProcessedFileRecord. -/
inductive IngestStep : IngestState → IngestEv → IngestState → Prop where
  | beginPass (s : IngestState) (h : s.passActive = false) :
      IngestStep s IngestEv.beginPass { s with passActive := true }
  | claimFile (s : IngestState) (n : String)
      (hact : s.passActive = true) (hin : n ∈ s.inbox)
      (hproc : n ∉ s.processed) (hprog : n ∉ s.inProgress) :
      IngestStep s (IngestEv.claimFile n)
        { s with inbox := s.inbox.erase n, inProgress := n :: s.inProgress }
  | finalizeFile (s : IngestState) (n : String) (ok : Bool)
      (hprog : n ∈ s.inProgress) :
      IngestStep s (IngestEv.finalizeFile n ok)
        { s with inProgress := s.inProgress.erase n,
                 processed := n :: s.processed,
                 archive := if ok then n :: s.archive else s.archive,
                 errorLoc := if ok then s.errorLoc else n :: s.errorLoc }
  | endPass (s : IngestState) :
      IngestStep s IngestEv.endPass { s with passActive := false }

/-- A sequence of ingestion transitions. -/
inductive IngestTrace : IngestState → List IngestEv → IngestState → Prop where
  | nil (s : IngestState) : IngestTrace s [] s
  | cons {s s1 s2 : IngestState} {e : IngestEv} {es : List IngestEv} :
      IngestStep s e s1 → IngestTrace s1 es s2 → IngestTrace s (e :: es) s2

/-- The initial ingestion state for a batch of files placed in the inbox. -/
def ingestInit (files : List String) : IngestState :=
  ⟨files, [], [], [], [], false⟩

/-- Whether an event is a claim of the given filename. -/
def isClaimOf (n : String) : IngestEv → Bool
  | IngestEv.claimFile m => m = n
  | _ => false

/-- Whether an event is a finalization of the given filename. -/
def isFinalizeOf (n : String) : IngestEv → Bool
  | IngestEv.finalizeFile m _ => m = n
  | _ => false

/-- How many times the given filename was claimed in an event sequence. -/
def claimCount (n : String) (es : List IngestEv) : Nat :=
  (es.filter (isClaimOf n)).length

/-- How many times the given filename was finalized in an event sequence. -/
def finalizeCount (n : String) (es : List IngestEv) : Nat :=
  (es.filter (isFinalizeOf n)).length

/-! ## Verbose health snapshot

The response shape of `GET /health/verbose` is declared in the frontend
interface `VerboseHealthData` in `src/unnamed/part_005`
(the health dashboard page); the backend builder of that response is not in
the repository and is modelled from the spec. -/

/-- One per-component health object: a status string and optional details,
matching interface `ComponentStatus` in `src/unnamed/part_005`. -/
structure ComponentStatus where
  status : String
  details : Option String
deriving DecidableEq, Repr

/-- The scheduler component additionally carries the next scheduled run time,
matching interface `SchedulerComponentStatus` in `src/unnamed/part_005`. -/
structure SchedulerComponentStatus where
  status : String
  details : Option String
  next_run_time : Option String
deriving DecidableEq, Repr

/-- The operating mode, as the code spells it: "transient" is the ephemeral
mode and "persistent" the durable mode of the specification. -/
inductive OperationMode where
  | transient
  | persistent
deriving DecidableEq, Repr

/-- The verbose health snapshot, component names as in interface
`VerboseHealthData` in `src/unnamed/part_005`; the remote-storage component
(`google_drive_status`) is an Option because the spec populates it only in
durable mode. -/
structure VerboseHealthData where
  overall_status : String
  database_status : ComponentStatus
  gemini_api_status : ComponentStatus
  google_drive_status : Option ComponentStatus
  scheduler_status : SchedulerComponentStatus
  filesystem_status : ComponentStatus
  frontend_service_status : ComponentStatus
  timestamp : String
deriving DecidableEq, Repr

/-- The raw component readings the aggregator collects before assembling a
verbose snapshot. -/
structure HealthInputs where
  mode : OperationMode
  db : ComponentStatus
  gemini : ComponentStatus
  drive : ComponentStatus
  sched : ComponentStatus
  schedNextRun : String
  fs : ComponentStatus
  fe : ComponentStatus
  now : String
deriving Repr

/-- Overall status as the worst of the individual component statuses: 正常
(healthy) only when every component reports 正常. -/
def overallOf (statuses : List String) : String :=
  if statuses.all (fun s => s = "正常") then "正常" else "異常"

/-- Modelled from the spec: the backend builder of the `GET /health/verbose`
response (the FastAPI backend is missing from the repository).  Every
component is reported as a status plus optional details, the scheduler
component carries the next scheduled run time, and the remote-storage
component is populated only when the mode is durable (persistent). -/
def buildVerboseHealth (inp : HealthInputs) : VerboseHealthData :=
  { overall_status := overallOf
      [inp.db.status, inp.gemini.status, inp.sched.status, inp.fs.status, inp.fe.status]
    database_status := inp.db
    gemini_api_status := inp.gemini
    google_drive_status :=
      match inp.mode with
      | OperationMode.persistent => some inp.drive
      | OperationMode.transient => none
    scheduler_status := ⟨inp.sched.status, inp.sched.details, some inp.schedNextRun⟩
    filesystem_status := inp.fs
    frontend_service_status := inp.fe
    timestamp := inp.now }

/-! ## Helper lemmas about the registry association list -/

theorem regGet_upsert_self (reg : KeyRegistry) (k : String) (e : KeyEntry) :
    regGet (upsertKey reg k e) k = some e := by
  induction reg with
  | nil => simp [upsertKey, regGet]
  | cons p rest ih =>
    by_cases h : p.1 = k
    · simp [upsertKey, h, regGet]
    · simp [upsertKey, h, regGet, ih]

theorem regGet_upsert_ne (reg : KeyRegistry) (k k2 : String) (e : KeyEntry)
    (h : k2 ≠ k) : regGet (upsertKey reg k e) k2 = regGet reg k2 := by
  have hk2 : ¬ (k = k2) := fun hEq => h hEq.symm
  induction reg with
  | nil => simp [upsertKey, regGet, hk2]
  | cons p rest ih =>
    by_cases hp : p.1 = k
    · simp [upsertKey, hp, regGet, hk2]
    · simp [upsertKey, hp, regGet, ih]

theorem regGet_erase_self (reg : KeyRegistry) (k : String) :
    regGet (eraseKey reg k) k = none := by
  induction reg with
  | nil => simp [eraseKey, regGet]
  | cons p rest ih =>
    by_cases h : p.1 = k
    · simp [eraseKey, h, ih]
    · simp [eraseKey, h, regGet, ih]

theorem regGet_erase_ne (reg : KeyRegistry) (k k2 : String) (h : k2 ≠ k) :
    regGet (eraseKey reg k) k2 = regGet reg k2 := by
  induction reg with
  | nil => simp [eraseKey]
  | cons p rest ih =>
    by_cases hp : p.1 = k
    · have hk2 : ¬ (k = k2) := fun hEq => h hEq.symm
      simp [eraseKey, hp, regGet, hk2, ih]
    · simp [eraseKey, hp, regGet, ih]

theorem regGet_applyOneKey_self (reg : KeyRegistry) (k v : String) (hv : v ≠ "") :
    regGet (applyOneKey reg k v) k = some ⟨v, KeySource.runtime⟩ := by
  simp [applyOneKey, hv, regGet_upsert_self]

theorem regGet_applyOneKey_self_empty (reg : KeyRegistry) (k : String) :
    regGet (applyOneKey reg k "") k = none := by
  simp [applyOneKey, regGet_erase_self]

theorem regGet_applyOneKey_ne (reg : KeyRegistry) (k k2 v : String) (h : k2 ≠ k) :
    regGet (applyOneKey reg k v) k2 = regGet reg k2 := by
  by_cases hv : v = ""
  · simp [applyOneKey, hv, regGet_erase_ne reg k k2 h]
  · simp [applyOneKey, hv, regGet_upsert_ne reg k k2 _ h]

/-! ## Helper lemmas about registry traces -/

theorem regTrace_append_split {reg0 reg2 : KeyRegistry} {xs ys : List RegEv}
    (h : RegTrace reg0 (xs ++ ys) reg2) :
    ∃ rm, RegTrace reg0 xs rm ∧ RegTrace rm ys reg2 := by
  induction xs generalizing reg0 with
  | nil => exact ⟨reg0, RegTrace.nil _, by simpa using h⟩
  | cons e xs ih =>
    cases h with
    | cons hstep htr =>
      obtain ⟨rm, h1, h2⟩ := ih htr
      exact ⟨rm, RegTrace.cons hstep h1, h2⟩

theorem regGet_of_no_set {reg0 reg2 : KeyRegistry} {es : List RegEv} {k : String}
    (h : RegTrace reg0 es reg2) (hno : ∀ v2, RegEv.setK k v2 ∉ es) :
    regGet reg2 k = regGet reg0 k := by
  induction h with
  | nil => rfl
  | cons hstep htr ih =>
    cases hstep with
    | setK k1 v1 hk1 =>
      have hne : k ≠ k1 := by
        intro hEq
        exact hno v1 (by rw [hEq]; exact List.mem_cons_self _ _)
      rw [ih (fun v2 hm => hno v2 (List.mem_cons_of_mem _ hm)),
        regGet_applyOneKey_ne _ k1 k v1 hne]

theorem regGet_trace_cases {reg0 reg2 : KeyRegistry} {es : List RegEv}
    (h : RegTrace reg0 es reg2) (k2 : String) (e : KeyEntry)
    (he : regGet reg2 k2 = some e) :
    regGet reg0 k2 = some e ∨
      ∃ v2, RegEv.setK k2 v2 ∈ es ∧ e = ⟨v2, KeySource.runtime⟩ := by
  induction h with
  | nil => exact Or.inl he
  | cons hstep htr ih =>
    rcases ih he with h1 | ⟨v2, hm, hEq⟩
    · cases hstep with
      | setK k1 v1 hk1 =>
        by_cases hkk : k1 = k2
        · subst hkk
          by_cases hv1 : v1 = ""
          · rw [hv1, regGet_applyOneKey_self_empty] at h1
            cases h1
          · rw [regGet_applyOneKey_self _ k1 v1 hv1] at h1
            injection h1 with h1
            exact Or.inr ⟨v1, List.mem_cons_self _ _, h1.symm⟩
        · rw [regGet_applyOneKey_ne _ k1 k2 v1 (fun hEq => hkk hEq.symm)] at h1
          exact Or.inl h1
    · exact Or.inr ⟨v2, List.mem_cons_of_mem _ hm, hEq⟩

/-! ## Helper lemmas about ingestion traces -/

theorem claimCount_cons (n : String) (e : IngestEv) (es : List IngestEv) :
    claimCount n (e :: es) =
      (if isClaimOf n e then 1 else 0) + claimCount n es := by
  by_cases h : isClaimOf n e <;>
    simp [claimCount, List.filter_cons, h, Nat.add_comm]

theorem finalizeCount_cons (n : String) (e : IngestEv) (es : List IngestEv) :
    finalizeCount n (e :: es) =
      (if isFinalizeOf n e then 1 else 0) + finalizeCount n es := by
  by_cases h : isFinalizeOf n e <;>
    simp [finalizeCount, List.filter_cons, h, Nat.add_comm]

theorem ingest_inbox_claims {s0 s1 : IngestState} {es : List IngestEv}
    (h : IngestTrace s0 es s1) (n : String) :
    claimCount n es + s1.inbox.count n = s0.inbox.count n := by
  induction es generalizing s0 with
  | nil => cases h with | nil => simp [claimCount]
  | cons e es ih =>
    cases h with
    | cons hstep htr =>
      rw [claimCount_cons]
      cases hstep with
      | beginPass hp =>
        simpa [isClaimOf] using ih htr
      | claimFile m hact hin hproc hprog =>
        have h2 := ih htr
        by_cases hmn : m = n
        · subst hmn
          have hpos := List.count_pos_iff.mpr hin
          simp only [List.count_erase_self] at h2
          simp [isClaimOf]
          omega
        · have hne : n ≠ m := fun hEq => hmn hEq.symm
          simp only [List.count_erase_of_ne hne] at h2
          simp [isClaimOf, hmn]
          omega
      | finalizeFile m ok hprog =>
        simpa [isClaimOf] using ih htr
      | endPass =>
        simpa [isClaimOf] using ih htr

theorem ingest_inprogress_finalizes {s0 s1 : IngestState} {es : List IngestEv}
    (h : IngestTrace s0 es s1) (n : String) :
    finalizeCount n es + s1.inProgress.count n =
      s0.inProgress.count n + claimCount n es := by
  induction es generalizing s0 with
  | nil => cases h with | nil => simp [claimCount, finalizeCount]
  | cons e es ih =>
    cases h with
    | cons hstep htr =>
      rw [claimCount_cons, finalizeCount_cons]
      cases hstep with
      | beginPass hp =>
        have h2 := ih htr
        simp at h2
        simp [isClaimOf, isFinalizeOf]
        omega
      | claimFile m hact hin hproc hprog =>
        have h2 := ih htr
        by_cases hmn : m = n
        · subst hmn
          simp only [List.count_cons_self] at h2
          simp [isClaimOf, isFinalizeOf]
          omega
        · have hne : n ≠ m := fun hEq => hmn hEq.symm
          simp only [List.count_cons_of_ne hne] at h2
          simp [isClaimOf, isFinalizeOf, hmn]
          omega
      | finalizeFile m ok hprog =>
        have h2 := ih htr
        by_cases hmn : m = n
        · subst hmn
          have hpos := List.count_pos_iff.mpr hprog
          simp only [List.count_erase_self] at h2
          simp [isClaimOf, isFinalizeOf]
          omega
        · have hne : n ≠ m := fun hEq => hmn hEq.symm
          simp only [List.count_erase_of_ne hne] at h2
          simp [isClaimOf, isFinalizeOf, hmn]
          omega
      | endPass =>
        have h2 := ih htr
        simp at h2
        simp [isClaimOf, isFinalizeOf]
        omega


/-- The first components of a key-to-status mapping built over a key list are
that key list itself. -/
theorem map_fst_pair (ks : List String) (f : String → String) :
    (ks.map (fun k => (k, f k))).map Prod.fst = ks := by
  induction ks with
  | nil => rfl
  | cons a ks ih => simp only [List.map_cons, ih]

/-! ## Claim theorems -/

/-- Claim C1, counterexample: the compact health response schema in
`src/openapi.json` does not carry the field names asserted by the claim; the
remote-storage field is named `drive_service_status` and the analysis-service
field is named `gemini_status` on the wire. -/
theorem c1_health_fields_counterexample :
    healthCheckResponseFields ≠ specClaimedHealthFields ∧
      "remote_storage_status" ∉ healthCheckResponseFields ∧
      "analysis_service_status" ∉ healthCheckResponseFields ∧
      "drive_service_status" ∈ healthCheckResponseFields ∧
      "gemini_status" ∈ healthCheckResponseFields := by
  decide

/-- Claim C1 as amended: every compact health response contains exactly the
fields status, message, scheduler_status, drive_service_status,
config_status, mode and gemini_status, in this order. -/
theorem c1_health_fields_amended (r : HealthCheckResponse) :
    r.toFields.map Prod.fst = healthCheckResponseFields := rfl

/-- Claim C3: a `POST /set_keys` body containing any key name outside the
enumerated recognized set yields HTTP 422 and leaves the registry untouched;
a body containing only recognized key names updates the registry and returns
the updated status mapping. -/
theorem c3_set_keys_endpoint (reg : KeyRegistry) (body : List (String × String)) :
    ((∃ p ∈ body, p.1 ∉ MANAGED_API_KEYS) →
        (setKeysEndpoint reg body).statusCode = 422 ∧
        (setKeysEndpoint reg body).registry = reg ∧
        (setKeysEndpoint reg body).body = none) ∧
    ((∀ p ∈ body, p.1 ∈ MANAGED_API_KEYS) →
        (setKeysEndpoint reg body).statusCode = 200 ∧
        (setKeysEndpoint reg body).body =
          some (keyStatusMap ((setKeysEndpoint reg body).registry))) := by
  by_cases hall : body.all (fun p => decide (p.1 ∈ MANAGED_API_KEYS)) = true
  · have hall2 := hall
    simp only [List.all_eq_true, decide_eq_true_eq] at hall2
    constructor
    · rintro ⟨p, hp, hnp⟩
      exact absurd (hall2 p hp) hnp
    · intro _
      simp [setKeysEndpoint, hall]
  · constructor
    · intro _
      simp [setKeysEndpoint, hall]
    · intro hrec
      exfalso
      apply hall
      simp only [List.all_eq_true, decide_eq_true_eq]
      exact hrec

/-- Claim C3, witness: a body with the unrecognized name UNKNOWN_KEY is
rejected with 422 without touching the registry, and a body with only the
recognized name GOOGLE_API_KEY succeeds and returns the updated mapping. -/
theorem c3_set_keys_endpoint_witness :
    ((∃ p ∈ [("UNKNOWN_KEY", "x")], p.1 ∉ MANAGED_API_KEYS) ∧
      (setKeysEndpoint ([] : KeyRegistry) [("UNKNOWN_KEY", "x")]).statusCode = 422 ∧
      (setKeysEndpoint ([] : KeyRegistry) [("UNKNOWN_KEY", "x")]).registry = ([] : KeyRegistry) ∧
      (setKeysEndpoint ([] : KeyRegistry) [("UNKNOWN_KEY", "x")]).body = none) ∧
    ((∀ p ∈ [("GOOGLE_API_KEY", "user-value")], p.1 ∈ MANAGED_API_KEYS) ∧
      (setKeysEndpoint ([] : KeyRegistry) [("GOOGLE_API_KEY", "user-value")]).statusCode = 200 ∧
      (setKeysEndpoint ([] : KeyRegistry) [("GOOGLE_API_KEY", "user-value")]).body =
        some (keyStatusMap ((setKeysEndpoint ([] : KeyRegistry)
          [("GOOGLE_API_KEY", "user-value")]).registry))) := by
  constructor
  · exact ⟨by decide, (c3_set_keys_endpoint ([] : KeyRegistry) [("UNKNOWN_KEY", "x")]).1 (by decide)⟩
  · exact ⟨by decide, (c3_set_keys_endpoint ([] : KeyRegistry) [("GOOGLE_API_KEY", "user-value")]).2 (by decide)⟩

/-- Claim C4: the `GET /key_status` response has exactly the enumerated
recognized key names as its domain, and maps each key to 已設定 exactly when
the key currently has a stored value and to 未設定 otherwise. -/
theorem c4_key_status_mapping (reg : KeyRegistry) :
    ((keyStatusMap reg).map Prod.fst = MANAGED_API_KEYS) ∧
    (∀ p ∈ keyStatusMap reg,
      p.2 = if regHasValue reg p.1 then "已設定" else "未設定") := by
  constructor
  · exact map_fst_pair MANAGED_API_KEYS _
  · intro p hp
    simp only [keyStatusMap, List.mem_map] at hp
    obtain ⟨k, hk, rfl⟩ := hp
    rfl

/-- Claim C4, witness: for a registry holding only an environment-supplied
GOOGLE_API_KEY, the mapping entry for GOOGLE_API_KEY is 已設定. -/
theorem c4_key_status_mapping_witness :
    (("GOOGLE_API_KEY", "已設定") ∈
        keyStatusMap [("GOOGLE_API_KEY", ⟨"env-value", KeySource.environment⟩)]) ∧
      ("GOOGLE_API_KEY", "已設定").2 =
        (if regHasValue [("GOOGLE_API_KEY", ⟨"env-value", KeySource.environment⟩)]
            ("GOOGLE_API_KEY", "已設定").1 then "已設定" else "未設定") :=
  ⟨by decide, (c4_key_status_mapping _).2 _ (by decide)⟩

/-- Claim C5: for every recognized key name, `set(k, "")` takes the clear
branch, and it does so uniformly (the same branch for every registry state and
every recognized key): the call succeeds and the stored entry for k is
removed. -/
theorem c5_clear_behaviour_consistent (reg : KeyRegistry) (k : String)
    (hk : k ∈ MANAGED_API_KEYS) :
    setKey reg k "" = Except.ok (eraseKey reg k) ∧
      regGet (eraseKey reg k) k = none :=
  ⟨by simp [setKey, hk, applyOneKey], regGet_erase_self reg k⟩

/-- Claim C5, witness: clearing GOOGLE_API_KEY on a registry that holds it
succeeds and removes the entry. -/
theorem c5_clear_behaviour_consistent_witness :
    ("GOOGLE_API_KEY" ∈ MANAGED_API_KEYS) ∧
      (setKey [("GOOGLE_API_KEY", ⟨"env-value", KeySource.environment⟩)]
          "GOOGLE_API_KEY" "" =
        Except.ok (eraseKey [("GOOGLE_API_KEY", ⟨"env-value", KeySource.environment⟩)]
          "GOOGLE_API_KEY") ∧
        regGet (eraseKey [("GOOGLE_API_KEY", ⟨"env-value", KeySource.environment⟩)]
          "GOOGLE_API_KEY") "GOOGLE_API_KEY" = none) :=
  ⟨by decide, c5_clear_behaviour_consistent _ "GOOGLE_API_KEY" (by decide)⟩

/-- Claim C9: the recognized key names form exactly the seven-element closed
enumeration of the claim, and the key-management operations reject any name
outside it: `set` fails with ValidationError, the `set_keys` endpoint answers
422, and the status mapping never mentions a name outside the enumeration. -/
theorem c9_closed_enumeration :
    (MANAGED_API_KEYS =
      ["GOOGLE_API_KEY", "API_KEY_FRED", "API_KEY_FINMIND", "API_KEY_FINNHUB",
       "API_KEY_FMP", "ALPHA_VANTAGE_API_KEY", "DEEPSEEK_API_KEY"]) ∧
    (∀ reg k v, k ∉ MANAGED_API_KEYS →
      setKey reg k v = Except.error () ∧
        (setKeysEndpoint reg [(k, v)]).statusCode = 422) ∧
    (∀ reg, (keyStatusMap reg).map Prod.fst = MANAGED_API_KEYS) := by
  refine ⟨rfl, ?_, ?_⟩
  · intro reg k v hk
    constructor
    · simp [setKey, hk]
    · simp [setKeysEndpoint, hk]
  · intro reg
    exact map_fst_pair MANAGED_API_KEYS _

/-- Claim C9, witness: UNKNOWN_KEY is outside the enumeration and both
operations reject it. -/
theorem c9_closed_enumeration_witness :
    ("UNKNOWN_KEY" ∉ MANAGED_API_KEYS) ∧
      (setKey ([] : KeyRegistry) "UNKNOWN_KEY" "x" = Except.error () ∧
        (setKeysEndpoint ([] : KeyRegistry) [("UNKNOWN_KEY", "x")]).statusCode = 422) :=
  ⟨by decide, c9_closed_enumeration.2.1 ([] : KeyRegistry) "UNKNOWN_KEY" "x" (by decide)⟩

/-- Claim C7: the verbose health snapshot reports each component as a status
with optional details, the scheduler component carries the next scheduled run
time, and the remote-storage component is populated exactly when the mode is
durable (persistent). -/
theorem c7_verbose_health_shape (inp : HealthInputs) :
    ((buildVerboseHealth inp).google_drive_status.isSome ↔
        inp.mode = OperationMode.persistent) ∧
      (buildVerboseHealth inp).scheduler_status.next_run_time = some inp.schedNextRun ∧
      (buildVerboseHealth inp).scheduler_status.status = inp.sched.status ∧
      (buildVerboseHealth inp).scheduler_status.details = inp.sched.details ∧
      (buildVerboseHealth inp).database_status = inp.db ∧
      (buildVerboseHealth inp).gemini_api_status = inp.gemini ∧
      (buildVerboseHealth inp).filesystem_status = inp.fs ∧
      (buildVerboseHealth inp).frontend_service_status = inp.fe ∧
      (buildVerboseHealth inp).timestamp = inp.now := by
  refine ⟨?_, rfl, rfl, rfl, rfl, rfl, rfl, rfl, rfl⟩
  cases hm : inp.mode <;> simp [buildVerboseHealth, hm]

/-- Claim C10: after the mount-time fetch of `OperationModeProvider`
completes, the mode is never left undetermined and loading is over; when the
fetch failed or the JSON body lacked a mode field, the exposed mode is exactly
"transient". -/
theorem c10_fallback_transient (o : FetchOutcome) :
    ((fetchModeResult o).mode.isSome ∧ (fetchModeResult o).isLoadingMode = false) ∧
      (o = FetchOutcome.failure ∨ o = FetchOutcome.success none →
        fetchModeResult o = ⟨some "transient", false⟩) := by
  constructor
  · cases o with
    | failure => exact ⟨rfl, rfl⟩
    | success m => exact ⟨rfl, rfl⟩
  · rintro (rfl | rfl) <;> rfl

/-- Claim C10, witness: a failed fetch yields mode "transient" with loading
over. -/
theorem c10_fallback_transient_witness :
    (FetchOutcome.failure = FetchOutcome.failure ∨
        FetchOutcome.failure = FetchOutcome.success none) ∧
      fetchModeResult FetchOutcome.failure = ⟨some "transient", false⟩ :=
  ⟨Or.inl rfl, (c10_fallback_transient FetchOutcome.failure).2 (Or.inl rfl)⟩

/-- Claim C6: the operation mode is resolved once: any single fetch completion
clears the loading flag, and from a state whose loading flag is cleared no
further transition exists, so the observed mode never changes afterwards. -/
theorem c6_mode_immutable (s sF : ProviderState) (os : List FetchOutcome)
    (h : ProviderTrace s os sF) (hdone : s.isLoadingMode = false) :
    sF = s ∧ ∀ o, (fetchModeResult o).isLoadingMode = false := by
  constructor
  · cases h with
    | nil => rfl
    | cons hstep htr =>
      cases hstep with
      | fetchDone hl =>
        rw [hdone] at hl
        cases hl
  · intro o
    cases o <;> rfl

/-- Claim C6, witness: from the state reached after a failed fetch, every
trace leaves the state (and hence the mode) unchanged. -/
theorem c6_mode_immutable_witness :
    ((fetchModeResult FetchOutcome.failure).isLoadingMode = false) ∧
      (fetchModeResult FetchOutcome.failure = fetchModeResult FetchOutcome.failure ∧
        ∀ o, (fetchModeResult o).isLoadingMode = false) :=
  ⟨rfl, c6_mode_immutable _ _ [] (ProviderTrace.nil _) rfl⟩

/-- Claim C2: starting from an inbox in which each filename occurs at most
once, every sequence of ingestion transitions — any number of passes,
including a tick that fires while a pass is still active, which the system
skips by construction — claims each filename at most once and finalizes it at
most once. -/
theorem c2_ingestion_at_most_once (files : List String) (n : String)
    (es : List IngestEv) (s1 : IngestState)
    (hdup : files.count n ≤ 1)
    (h : IngestTrace (ingestInit files) es s1) :
    claimCount n es ≤ 1 ∧ finalizeCount n es ≤ 1 := by
  have h1 := ingest_inbox_claims h n
  have h2 := ingest_inprogress_finalizes h n
  simp only [ingestInit] at h1 h2
  simp at h1 h2
  omega

/-- Claim C2, witness: a full pass over an inbox holding the single file
report_2024W10.txt claims and finalizes it exactly once, hence at most
once. -/
theorem c2_ingestion_at_most_once_witness :
    (["report_2024W10.txt"].count "report_2024W10.txt" ≤ 1) ∧
      (claimCount "report_2024W10.txt"
          [IngestEv.beginPass, IngestEv.claimFile "report_2024W10.txt",
           IngestEv.finalizeFile "report_2024W10.txt" true, IngestEv.endPass] ≤ 1 ∧
        finalizeCount "report_2024W10.txt"
          [IngestEv.beginPass, IngestEv.claimFile "report_2024W10.txt",
           IngestEv.finalizeFile "report_2024W10.txt" true, IngestEv.endPass] ≤ 1) := by
  have htrace := IngestTrace.cons
    (IngestStep.beginPass (ingestInit ["report_2024W10.txt"]) rfl)
    (IngestTrace.cons
      (IngestStep.claimFile _ "report_2024W10.txt" rfl (by decide) (by decide) (by decide))
      (IngestTrace.cons (IngestStep.finalizeFile _ "report_2024W10.txt" true (by decide))
        (IngestTrace.cons (IngestStep.endPass _) (IngestTrace.nil _))))
  exact ⟨by decide, c2_ingestion_at_most_once _ _ _ _ (by decide) htrace⟩

/-- Claim C8: once a runtime `set(k, v)` with a non-empty value has succeeded,
then at the end of any continuation of the trace the entry for k is the
runtime value v as long as no later set touches k, any entry ever observed for
k afterwards has runtime provenance (never environment), and every entry
observed for any key is either its untouched initial entry or the complete
value of some `set` call — readers never see a half-written entry. -/
theorem c8_runtime_shadowing (reg0 regF : KeyRegistry) (k v : String)
    (es1 es2 : List RegEv)
    (h : RegTrace reg0 (es1 ++ RegEv.setK k v :: es2) regF)
    (hv : v ≠ "") :
    ((∀ v2, RegEv.setK k v2 ∉ es2) →
        regGet regF k = some ⟨v, KeySource.runtime⟩) ∧
    (∀ e, regGet regF k = some e → e.source = KeySource.runtime) ∧
    (∀ k2 e, regGet regF k2 = some e →
        regGet reg0 k2 = some e ∨
          ∃ v2, RegEv.setK k2 v2 ∈ es1 ++ RegEv.setK k v :: es2 ∧
            e = ⟨v2, KeySource.runtime⟩) := by
  obtain ⟨rm, htr1, htr2⟩ := regTrace_append_split h
  cases htr2 with
  | cons hstep htr3 =>
    have hmid : regGet (applyOneKey rm k v) k = some ⟨v, KeySource.runtime⟩ :=
      regGet_applyOneKey_self rm k v hv
    cases hstep with
    | setK _ _ hk =>
      refine ⟨?_, ?_, ?_⟩
      · intro hno
        rw [regGet_of_no_set htr3 hno, hmid]
      · intro e he
        rcases regGet_trace_cases htr3 k e he with h1 | ⟨v2, _, hEq⟩
        · rw [hmid] at h1
          injection h1 with h1
          rw [← h1]
        · rw [hEq]
      · intro k2 e he
        exact regGet_trace_cases h k2 e he

/-- Claim C8, witness: after `set("GOOGLE_API_KEY", "user-value")` on a
registry holding an environment-sourced value, the lookup returns the runtime
value user-value with runtime provenance. -/
theorem c8_runtime_shadowing_witness :
    ("user-value" ≠ "") ∧
      regGet (applyOneKey
          [("GOOGLE_API_KEY", ⟨"env-value", KeySource.environment⟩)]
          "GOOGLE_API_KEY" "user-value") "GOOGLE_API_KEY" =
        some ⟨"user-value", KeySource.runtime⟩ := by
  refine ⟨by decide, ?_⟩
  exact (c8_runtime_shadowing
      [("GOOGLE_API_KEY", ⟨"env-value", KeySource.environment⟩)] _
      "GOOGLE_API_KEY" "user-value" [] []
      (RegTrace.cons (RegStep.setK _ "GOOGLE_API_KEY" "user-value" (by decide))
        (RegTrace.nil _))
      (by decide)).1
    (fun v2 => List.not_mem_nil _)
